import Mathlib

/-!
Verification development for the EpiTator structured-incident pipeline and the
geonames gazetteer importer.  The Python sources are shallowly embedded:
pure functions become Lean functions, the per-column / per-row loops become
folds or structural recursions, partial functions (code that can raise)
return `Option`, and Python 2 value comparisons against `None` are spelled
out explicitly where the code relies on them.
-/

set_option autoImplicit false

/-! ## Character and string helpers (Python semantics on ASCII text) -/

/-- The six ASCII whitespace characters recognised by Python's `str.strip`
and by the regex class `\s`. -/
def pyIsSpace (c : Char) : Bool :=
  c == ' ' || c == '\t' || c == '\n' || c == '\r' || c == '\x0b' || c == '\x0c'

/-- Strip `pyIsSpace` characters from both ends of a character list. -/
def stripChars (l : List Char) : List Char :=
  ((l.dropWhile pyIsSpace).reverse.dropWhile pyIsSpace).reverse

/-- Python `str.strip()`. -/
def pyStrip (s : String) : String := String.mk (stripChars s.data)

/-- Python `str.lower()` (ASCII). -/
def strLower (s : String) : String := String.mk (s.data.map Char.toLower)

def listPrefixEq : List Char → List Char → Bool
  | [], _ => true
  | _ :: _, [] => false
  | a :: as, b :: bs => a == b && listPrefixEq as bs

def containsAux (pat : List Char) : List Char → Bool
  | [] => listPrefixEq pat []
  | c :: cs => listPrefixEq pat (c :: cs) || containsAux pat cs

/-- Python's `pat in s` substring test. -/
def strContains (s pat : String) : Bool := containsAux pat.data s.data

def digitVal (c : Char) : Option Nat :=
  if '0' ≤ c ∧ c ≤ '9' then some (c.toNat - '0'.toNat) else none

def digitsAux : List Char → Nat → Option Nat
  | [], acc => some acc
  | c :: rest, acc =>
    match digitVal c with
    | some d => digitsAux rest (acc * 10 + d)
    | none => none

/-- Value of a nonempty all-digit string, `none` otherwise. -/
def parseDigits (s : String) : Option Nat :=
  if s.data.isEmpty then none else digitsAux s.data 0

/-- Python `s.split(',')` (for the nonempty strings the importer feeds it). -/
def splitOnCommaAux : List Char → List Char → List String
  | acc, [] => [String.mk acc.reverse]
  | acc, c :: rest =>
    if c == ',' then String.mk acc.reverse :: splitOnCommaAux [] rest
    else splitOnCommaAux (c :: acc) rest

def pySplitComma (s : String) : List String := splitOnCommaAux [] s.data

/-- Python `s[0].upper() + s[1:]` on a nonempty string. -/
def capitalizeStr (s : String) : String :=
  match s.data with
  | [] => ""
  | c :: cs => String.mk (c.toUpper :: cs)

/-! ## The annotation-substrate contract

The span classes live in `annospan.py` / `annotier.py`, which are not part of
the sources here; the operations below are modelled from the spec's contract
for the substrate (§4.2): grouping by full containment, overlap filtering,
both computed purely from the half-open offset ranges. -/

/-- A text span: half-open offset range `[start, stop)` plus its text. -/
structure AnnoSpan where
  start : Nat
  stop : Nat
  text : String
deriving DecidableEq, Repr

/-- Modelled from the spec: `inner` is fully contained in `outer`,
comparing offset ranges only. -/
def spanContains (outer inner : AnnoSpan) : Bool :=
  outer.start ≤ inner.start && inner.stop ≤ outer.stop

/-- Modelled from the spec: the half-open ranges of `a` and `b` overlap. -/
def spanOverlaps (a b : AnnoSpan) : Bool :=
  a.start < b.stop && b.start < a.stop

/-- Modelled from the spec: `group_spans_by_containing_span` — every outer
span paired with the inner spans fully contained in it, outer order kept. -/
def groupSpansByContainingSpan (outer inner : List AnnoSpan) :
    List (AnnoSpan × List AnnoSpan) :=
  outer.map (fun o => (o, inner.filter (fun i => spanContains o i)))

/-- Modelled from the spec: `without_overlaps` — the subsequence of `a`
whose spans overlap no span of `b`. -/
def withoutOverlaps (a b : List AnnoSpan) : List AnnoSpan :=
  a.filter (fun s => !(b.any (fun t => spanOverlaps s t)))

/-! ## Number validation (`structured_incident_annotator.py`) -/

/-- Modelled from the spec: `utils.parse_spelled_number`, the shared
spelled/digit parser the annotator calls.  The claims only exercise it on
digit strings, so it is modelled as returning the value of a digit string
and `none` otherwise. -/
def parse_spelled_number (s : String) : Option Int :=
  (parseDigits s).map (fun n => (n : Int))

/-- `is_valid_number`: rejects multi-character strings with a leading zero,
otherwise asks the shared parser.  `num_string[0]` raises on the empty
string, modelled as `none`. -/
def is_valid_number (s : String) : Option Bool :=
  match s.data with
  | [] => none
  | c :: _ => some (if c == '0' && decide (1 < s.length) then false
                    else (parse_spelled_number s).isSome)

def is_null (s : String) : Bool :=
  let t := pyStrip s
  t == "" || t == "-"

/-! ## Range splitting of quantity/cardinal mentions -/

/-- Match `(to|and|or)\s` at the head of the list (the part of the joiner
regex after its leading `\s`); returns the matched length plus one. -/
def joinerLen (rest : List Char) : Option Nat :=
  match rest with
  | 't' :: 'o' :: d :: _ => if pyIsSpace d then some 4 else none
  | 'a' :: 'n' :: 'd' :: d :: _ => if pyIsSpace d then some 5 else none
  | 'o' :: 'r' :: d :: _ => if pyIsSpace d then some 4 else none
  | _ => none

/-- Match the regex `\s(?:to|and|or)\s` at the head of the list. -/
def joinerAt (l : List Char) : Option Nat :=
  match l with
  | [] => none
  | c :: rest => if pyIsSpace c then joinerLen rest else none

/-- `re.finditer` for the joiner regex: leftmost non-overlapping matches. -/
def findJoinersAux : Nat → Nat → List Char → List (Nat × Nat)
  | 0, _, _ => []
  | _ + 1, _, [] => []
  | fuel + 1, i, c :: rest =>
    match joinerAt (c :: rest) with
    | some len => (i, i + len) :: findJoinersAux fuel (i + len) ((c :: rest).drop len)
    | none => findJoinersAux fuel (i + 1) rest

/-- Offset pairs of all joiner-regex matches in `s`. -/
def findJoiners (s : String) : List (Nat × Nat) :=
  findJoinersAux s.data.length 0 s.data

/-- `doc[a:b]` as a string. -/
def sliceStr (doc : List Char) (a b : Nat) : String :=
  String.mk ((doc.drop a).take (b - a))

/-- A named-entity mention from the NER tier: label plus offsets into the
document. -/
structure NeSpan where
  label : String
  start : Nat
  stop : Nat
deriving DecidableEq, Repr

/-- The per-mention body of the numbers loop in
`StructuredIncidentAnnotator.annotate`: a quantity/cardinal mention that is
itself a valid number yields one count candidate; an invalid one with
exactly one joiner match is split into two range endpoints, each kept only
if individually valid.  `none` models the `IndexError` raised when
`is_valid_number` is handed an empty string. -/
def numberCandidatesForSpan (doc : List Char) (ne : NeSpan) : Option (List AnnoSpan) :=
  if ne.label == "QUANTITY" || ne.label == "CARDINAL" then
    match is_valid_number (sliceStr doc ne.start ne.stop) with
    | none => none
    | some true => some [⟨ne.start, ne.stop, sliceStr doc ne.start ne.stop⟩]
    | some false =>
      match findJoiners (sliceStr doc ne.start ne.stop) with
      | [(a, b)] =>
        match is_valid_number (sliceStr doc ne.start (ne.start + a)),
              is_valid_number (sliceStr doc (ne.start + b) ne.stop) with
        | some vs, some ve =>
          some ((if vs then
                  [⟨ne.start, ne.start + a, sliceStr doc ne.start (ne.start + a)⟩]
                 else []) ++
                (if ve then
                  [⟨ne.start + b, ne.stop, sliceStr doc (ne.start + b) ne.stop⟩]
                 else []))
        | _, _ => none
      | _ => some []
  else some []

/-! ## Column typing (`StructuredIncidentAnnotator.annotate`, table loop)

A cell's resolved entity is `some spans` for the `SpanGroup(contained_spans)`
the code builds, and `none` both for the code's `None` and for the `[]`
placeholder of text columns (the two are indistinguishable downstream, where
cells are only tested for truthiness). -/

/-- For the `number` candidate type the code first removes numeric spans that
overlap a date span. -/
def filteredSpans (dates : List AnnoSpan) (vt : String) (vs : List AnnoSpan) :
    List AnnoSpan :=
  if vt == "number" then withoutOverlaps vs dates else vs

/-- Per-cell resolved entities of one candidate type for one column. -/
def columnEntities (cols fvs : List AnnoSpan) : List (Option (List AnnoSpan)) :=
  (groupSpansByContainingSpan cols fvs).map
    (fun p => if 0 < p.2.length then some p.2 else none)

/-- `num_non_null_rows`. -/
def numNonNull (cols : List AnnoSpan) : Nat :=
  (cols.filter (fun v => !(is_null v.text))).length

/-- Match count of one candidate type against one column. -/
def typeMatchCount (dates cols : List AnnoSpan) (e : String × List AnnoSpan) : Nat :=
  List.countP Option.isSome (columnEntities cols (filteredSpans dates e.1 e.2))

/-- The candidate-type loop: running best match count, current column type,
current winning entities (`none` until the first iteration has run). -/
def colTypeLoop (dates cols : List AnnoSpan) (nn : Nat) :
    List (String × List AnnoSpan) → Nat → String →
    Option (List (Option (List AnnoSpan))) →
    String × List (Option (List AnnoSpan))
  | [], _, ct, matching => (ct, matching.getD (cols.map (fun _ => none)))
  | e :: rest, maxM, ct, matching =>
    if 0 < nn ∧ nn * 3 < typeMatchCount dates cols e * 10 ∧
        maxM < typeMatchCount dates cols e then
      colTypeLoop dates cols nn rest (typeMatchCount dates cols e) e.1
        (some (columnEntities cols (filteredSpans dates e.1 e.2)))
    else
      colTypeLoop dates cols nn rest maxM ct
        (if matching.isNone then some (cols.map (fun _ => none)) else matching)

/-- Column type and per-cell entities for one column, given the ordered
candidate entity tiers.  The float test `matches / nonNull > 0.3` is carried
out exactly, as `nonNull * 3 < matches * 10`. -/
def chooseColumnType (dates cols : List AnnoSpan)
    (entities : List (String × List AnnoSpan)) :
    String × List (Option (List AnnoSpan)) :=
  colTypeLoop dates cols (numNonNull cols) entities 0 "text" none

/-- Eligibility per the spec: positive non-null count and match ratio
strictly above 0.30. -/
def typeEligible (dates cols : List AnnoSpan) (nn : Nat)
    (e : String × List AnnoSpan) : Bool :=
  decide (0 < nn) && decide (nn * 3 < typeMatchCount dates cols e * 10)

/-- Greatest match count among eligible candidate types. -/
def maxEligCount (dates cols : List AnnoSpan) (nn : Nat)
    (es : List (String × List AnnoSpan)) : Nat :=
  ((es.filter (typeEligible dates cols nn)).map (typeMatchCount dates cols)).foldr max 0

/-- Header detection: row 0 is a header iff no cell of row 0 contains a
numeric-entity span. -/
def hasHeader (numbers row0 : List AnnoSpan) : Bool :=
  (groupSpansByContainingSpan row0 numbers).all (fun p => p.2.length == 0)

/-- The emitted data rows: the first row is dropped exactly when it is
detected as a header. -/
def tableDataRows (numbers : List AnnoSpan) (row0 : List AnnoSpan)
    (rest : List (List AnnoSpan)) : List (List AnnoSpan) :=
  if hasHeader numbers row0 then rest else row0 :: rest

/-! ## Incident synthesis (`StructuredIncidentAnnotator.annotate`, row loop) -/

structure ColumnDef where
  name : Option String
  type : String
deriving DecidableEq, Repr

/-- Row-level context collected in the first pass over a row.
`aggregation` mirrors `row_incident_aggregation`, which the code initialises
to `None` and never assigns. -/
structure RowCtx where
  date : Option AnnoSpan
  location : Option AnnoSpan
  base_type : Option String
  status : Option String
  aggregation : Option String
deriving DecidableEq, Repr

/-- Python truthiness of an optional string. -/
def pyTruthy : Option String → Bool
  | none => false
  | some s => !(s == "")

def rowContext (cols : List ColumnDef) (row : List (Option AnnoSpan)) : RowCtx :=
  (cols.zip row).foldl (fun ctx cv =>
    match cv.2 with
    | none => ctx
    | some val =>
      if cv.1.type == "date" then { ctx with date := some val }
      else if cv.1.type == "geoname" then { ctx with location := some val }
      else if cv.1.type == "incident_type" then
        (if strContains (strLower val.text) "case" then
          { ctx with base_type := some "caseCount" }
        else if strContains (strLower val.text) "death" then
          { ctx with base_type := some "deathCount" }
        else ctx)
      else if cv.1.type == "incident_status" then { ctx with status := some val.text }
      else ctx)
    ⟨none, none, none, none, none⟩

/-- A draft incident as built in the per-cell pass, before the aggregation
resolution pass. -/
structure Draft where
  base_type : String
  aggregation : Option String
  value : Option Int
  attributes : List String
  location : Option AnnoSpan
  dateRange : Option AnnoSpan
  start : Nat
  stop : Nat
deriving DecidableEq, Repr

/-- A finalized incident (the internal `base_type`/`aggregation` working
fields are gone; `type` carries the result). -/
structure Incident where
  type : String
  value : Option Int
  attributes : List String
  location : Option AnnoSpan
  dateRange : Option AnnoSpan
  start : Nat
  stop : Nat
deriving DecidableEq, Repr

/-- The body of the draft-construction loop for one `(column, value)` pair.
The numeric value is obtained through the shared parser, passed in as a
parameter. -/
def draftOfCell (parse : String → Option Int) (ctx : RowCtx)
    (cv : ColumnDef × Option AnnoSpan) : Option Draft :=
  match cv.2 with
  | none => none
  | some val =>
    if cv.1.type == "number" then
      let column_name := strLower (cv.1.name.getD "")
      let incident_base_type :=
        if pyTruthy ctx.base_type then ctx.base_type.getD ""
        else if strContains column_name "cases" then "caseCount"
        else if strContains column_name "deaths" then "deathCount"
        else "caseCount"
      let count_status : Option String :=
        if pyTruthy ctx.status then ctx.status
        else if strContains column_name "suspect" then some "suspected"
        else if strContains column_name "confirmed" then some "confirmed"
        else none
      let incident_aggregation : Option String :=
        if ctx.aggregation.isSome then ctx.aggregation
        else if strContains column_name "total" then some "cumulative"
        else if strContains column_name "new" then some "incremental"
        else none
      some { base_type := incident_base_type,
             aggregation := incident_aggregation,
             value := parse val.text,
             attributes := match count_status with
                           | some s => if s == "" then [] else [s]
                           | none => [],
             location := ctx.location,
             dateRange := ctx.date,
             start := val.start,
             stop := val.stop }
    else none

/-- `row_incidents` for one row. -/
def rowDrafts (parse : String → Option Int) (cols : List ColumnDef)
    (row : List (Option AnnoSpan)) : List Draft :=
  (cols.zip row).filterMap (draftOfCell parse (rowContext cols row))

/-- `if max < incident['value']: max = incident['value']` with the Python 2
rule that `None` compares below every integer. -/
def pymaxStep (m : Int) (v : Option Int) : Int :=
  match v with
  | some x => if m < x then x else m
  | none => m

/-- One step of the first aggregation pass. -/
def incrStep (mm : Int × Int) (d : Draft) : Int × Int :=
  if d.aggregation == some "incremental" then
    if d.base_type == "caseCount" then (pymaxStep mm.1 d.value, mm.2)
    else (mm.1, pymaxStep mm.2 d.value)
  else mm

/-- First aggregation pass: the `(max_new_cases, max_new_deaths)` pair,
both starting at `-1`. -/
def incrMaxes (drafts : List Draft) : Int × Int :=
  drafts.foldl incrStep (-1, -1)

/-- `if m < x then x else m` on plain integers (the shape `pymaxStep` takes
once the value is known to be present). -/
def maxStep (m x : Int) : Int := if m < x then x else m

/-- `incident['value'] > max` with the Python 2 `None`-below-integers rule. -/
def valAbove (v : Option Int) (m : Int) : Bool :=
  match v with
  | some x => decide (m < x)
  | none => false

/-- Second aggregation pass, for one draft. -/
def markCumulative (mm : Int × Int) (d : Draft) : Draft :=
  if d.aggregation.isNone then
    if d.base_type == "caseCount" then
      (if 0 ≤ mm.1 ∧ valAbove d.value mm.1 = true then
        { d with aggregation := some "cumulative" } else d)
    else
      (if 0 ≤ mm.2 ∧ valAbove d.value mm.2 = true then
        { d with aggregation := some "cumulative" } else d)
  else d

/-- Finalization pass: rewrite the emitted `type`. -/
def finalizeDraft (d : Draft) : Incident :=
  { type := if d.aggregation == some "cumulative" then
              "cumulative" ++ capitalizeStr d.base_type
            else d.base_type,
    value := d.value,
    attributes := d.attributes,
    location := d.location,
    dateRange := d.dateRange,
    start := d.start,
    stop := d.stop }

/-- All three row passes chained: drafts, aggregation resolution,
finalization. -/
def processRow (parse : String → Option Int) (cols : List ColumnDef)
    (row : List (Option AnnoSpan)) : List Incident :=
  ((rowDrafts parse cols row).map
    (markCumulative (incrMaxes (rowDrafts parse cols row)))).map finalizeDraft

/-- Family selector: the code splits drafts into the `caseCount` family and
everything else (`deathCount`). -/
def famKey (d : Draft) : Bool := d.base_type == "caseCount"

/-- Values of the drafts already marked incremental in one family. -/
def famVals (drafts : List Draft) (isCase : Bool) : List Int :=
  drafts.filterMap (fun e =>
    if e.aggregation == some "incremental" && (famKey e == isCase) then e.value
    else none)

def listMaxI : List Int → Option Int
  | [] => none
  | v :: l =>
    match listMaxI l with
    | none => some v
    | some m => some (if m < v then v else m)

/-- The family's incremental maximum, per the spec: greatest value among the
drafts already marked incremental in the family of `bt` (none if there is
no such valued draft). -/
def famIncrMax (drafts : List Draft) (bt : String) : Option Int :=
  listMaxI (famVals drafts (bt == "caseCount"))

/-- Spec-side marking condition: the draft has a value and it strictly
exceeds its family's incremental maximum. -/
def specExceedsB (drafts : List Draft) (d : Draft) : Bool :=
  match d.value, famIncrMax drafts d.base_type with
  | some v, some m => decide (m < v)
  | _, _ => false

/-! ## Gazetteer importer (`sqlite_import_geonames.py`) -/

/-- A parsed numeric field: integer, float, or (through the default) the
integer 0.  Float values are represented exactly as rationals. -/
inductive NumVal where
  | int (n : Int)
  | float (q : Rat)
deriving DecidableEq, Repr

/-- `parse_number`: try integer parsing, then float parsing, then the
default.  The two Python built-in parsers are passed in as parameters. -/
def parse_number (pint : String → Option Int) (pfloat : String → Option Rat)
    (num : String) (default : NumVal) : NumVal :=
  match pint num with
  | some n => NumVal.int n
  | none =>
    match pfloat num with
    | some q => NumVal.float q
    | none => default

/-- One raw dataset row, restricted to the fields the importer actually
reads by name (the remaining CSV columns are carried through untouched and
play no part in the claims). -/
structure RawGeoRow where
  geonameid : String
  name : String
  alternatenames : String
  latitude : String
  longitude : String
  population : String
deriving DecidableEq, Repr

/-- A row after `read_geonames_csv` has processed it. -/
structure GeoRecord where
  geonameid : String
  name : String
  alternatenames : List String
  latitude : NumVal
  longitude : NumVal
  population : NumVal
deriving DecidableEq, Repr

/-- The per-row body of `read_geonames_csv`: lenient numeric parsing with
default 0, comma-split of the alternate-names field (empty field gives the
empty list). -/
def processGeoRow (pint : String → Option Int) (pfloat : String → Option Rat)
    (d : RawGeoRow) : GeoRecord :=
  { geonameid := d.geonameid,
    name := d.name,
    alternatenames :=
      if 0 < d.alternatenames.length then pySplitComma d.alternatenames else [],
    latitude := parse_number pint pfloat d.latitude (NumVal.int 0),
    longitude := parse_number pint pfloat d.longitude (NumVal.int 0),
    population := parse_number pint pfloat d.population (NumVal.int 0) }

/-- The alternate-name rows inserted for one place:
`set(geoname['alternatenames'] + [geoname['name']])`, each as
`(geonameid, alternatename, alternatename.lower().strip())`.  Only the
cardinality and membership of the set matter, so it is represented by the
deduplicated list. -/
def alternatenameTuples (g : GeoRecord) : List (String × String × String) :=
  ((g.alternatenames ++ [g.name]).dedup).map
    (fun a => (g.geonameid, a, pyStrip (strLower a)))

/-- All alternate-name rows inserted over the import run. -/
def allAltTuples : List GeoRecord → List (String × String × String)
  | [] => []
  | g :: gs => alternatenameTuples g ++ allAltTuples gs

/-- The `geonames INNER JOIN alternatenames USING (geonameid)` rows
(projected to the alternate-name side, which determines the counts). -/
def joinedAlts : List GeoRecord → List (String × String × String) →
    List (String × String × String)
  | [], _ => []
  | g :: gs, alts => alts.filter (fun a => a.1 == g.geonameid) ++ joinedAlts gs alts

/-- `SELECT geonameid, count(alternatename) ... GROUP BY geonameid`:
one row per distinct geonameid of the join, with the group size.  The
alternate-name column is never NULL, so `count` is the row count. -/
def joinCounts (geos : List GeoRecord) (alts : List (String × String × String)) :
    List (String × Nat) :=
  ((joinedAlts geos alts).map (fun a => a.1)).dedup.map
    (fun gid => (gid, ((joinedAlts geos alts).filter (fun a => a.1 == gid)).length))

/-- The three tables materialized by a successful build. -/
structure Database where
  geonames : List GeoRecord
  alternatenames : List (String × String × String)
  alternatename_counts : List (String × Nat)
deriving DecidableEq, Repr

def buildDatabase (rows : List GeoRecord) : Database :=
  { geonames := rows,
    alternatenames := allAltTuples rows,
    alternatename_counts := joinCounts rows (allAltTuples rows) }

/-- The filesystem-level state `create_sqlite_db` interacts with: whether a
database file already exists at the target path, and its contents. -/
structure BuildState where
  dbExists : Bool
  db : Option Database
deriving DecidableEq, Repr

/-- `create_sqlite_db`: if a database already exists at the target path,
log and return leaving the state untouched; otherwise build it. -/
def create_sqlite_db (input : List GeoRecord) (st : BuildState) : BuildState :=
  if st.dbExists then st
  else { dbExists := true, db := some (buildDatabase input) }

/-- The lenient-parse policy of spec §4.1/§7 for a single field, stated
against arbitrary integer/float parsers. -/
def lenientParsePolicy (pint : String → Option Int) (pfloat : String → Option Rat)
    (raw : String) (v : NumVal) : Prop :=
  (∀ n, pint raw = some n → v = NumVal.int n) ∧
  (pint raw = none → ∀ q, pfloat raw = some q → v = NumVal.float q) ∧
  (pint raw = none → pfloat raw = none → v = NumVal.int 0)

/-! ## Helper lemmas -/

theorem listMaxI_eq_none {l : List Int} : listMaxI l = none ↔ l = [] := by
  cases l with
  | nil => simp [listMaxI]
  | cons v l =>
    simp only [listMaxI]
    cases listMaxI l <;> simp

theorem listMaxI_mem {l : List Int} {M : Int} (h : listMaxI l = some M) : M ∈ l := by
  induction l generalizing M with
  | nil => simp [listMaxI] at h
  | cons v l ih =>
    simp only [listMaxI] at h
    cases hl : listMaxI l with
    | none =>
      rw [hl] at h
      simp only [Option.some.injEq] at h
      simp [← h]
    | some m =>
      rw [hl] at h
      simp only [Option.some.injEq] at h
      by_cases hlt : m < v
      · rw [if_pos hlt] at h
        simp [← h]
      · rw [if_neg hlt] at h
        subst h
        exact List.mem_cons_of_mem _ (ih hl)

theorem listMaxI_ge {l : List Int} {M x : Int} (h : listMaxI l = some M)
    (hx : x ∈ l) : x ≤ M := by
  induction l generalizing M with
  | nil => simp at hx
  | cons v l ih =>
    simp only [listMaxI] at h
    cases hl : listMaxI l with
    | none =>
      rw [hl] at h
      simp only [Option.some.injEq] at h
      rcases List.mem_cons.mp hx with rfl | hx2
      · omega
      · exact absurd (listMaxI_eq_none.mp hl ▸ hx2) (List.not_mem_nil x)
    | some m =>
      rw [hl] at h
      simp only [Option.some.injEq] at h
      rcases List.mem_cons.mp hx with rfl | hx2
      · by_cases hlt : m < x
        · rw [if_pos hlt] at h; omega
        · rw [if_neg hlt] at h; omega
      · have hxm := ih hl hx2
        by_cases hlt : m < v
        · rw [if_pos hlt] at h; omega
        · rw [if_neg hlt] at h; omega

theorem maxStep_eq_max (m x : Int) : maxStep m x = max m x := by
  unfold maxStep
  by_cases h : m < x
  · rw [if_pos h, max_eq_right (le_of_lt h)]
  · rw [if_neg h, max_eq_left (le_of_not_lt h)]

theorem foldl_maxStep_eq (l : List Int) : ∀ m : Int,
    l.foldl maxStep m =
      (match listMaxI l with
       | none => m
       | some M => maxStep m M) := by
  induction l with
  | nil => intro m; simp [listMaxI]
  | cons v l ih =>
    intro m
    simp only [List.foldl_cons, listMaxI]
    rw [ih (maxStep m v)]
    cases hl : listMaxI l with
    | none => simp
    | some M =>
      simp only []
      have h1 : (if M < v then v else M) = maxStep M v := rfl
      rw [h1, maxStep_eq_max, maxStep_eq_max, maxStep_eq_max, maxStep_eq_max,
        max_comm M v, max_assoc]

theorem foldl_incrStep_eq (l : List Draft) : ∀ mm : Int × Int,
    l.foldl incrStep mm =
      ((famVals l true).foldl maxStep mm.1, (famVals l false).foldl maxStep mm.2) := by
  induction l with
  | nil => intro mm; simp [famVals]
  | cons d rest ih =>
    intro mm
    simp only [List.foldl_cons]
    rw [ih (incrStep mm d)]
    by_cases hinc : (d.aggregation == some "incremental") = true
    · have hincp : d.aggregation = some "incremental" := eq_of_beq hinc
      by_cases hcase : (d.base_type == "caseCount") = true
      · have hcasep : d.base_type = "caseCount" := eq_of_beq hcase
        cases hv : d.value with
        | none =>
          have e1 : famVals (d :: rest) true = famVals rest true := by
            simp [famVals, List.filterMap_cons, famKey, hincp, hcasep, hv]
          have e2 : famVals (d :: rest) false = famVals rest false := by
            simp [famVals, List.filterMap_cons, famKey, hincp, hcasep, hv]
          have e3 : incrStep mm d = mm := by
            simp [incrStep, hinc, hcase, hv, pymaxStep]
          rw [e1, e2, e3]
        | some x =>
          have e1 : famVals (d :: rest) true = x :: famVals rest true := by
            simp [famVals, List.filterMap_cons, famKey, hincp, hcasep, hv]
          have e2 : famVals (d :: rest) false = famVals rest false := by
            simp [famVals, List.filterMap_cons, famKey, hincp, hcasep, hv]
          have e3 : incrStep mm d = (maxStep mm.1 x, mm.2) := by
            simp [incrStep, hinc, hcase, hv, pymaxStep, maxStep]
          rw [e1, e2, e3, List.foldl_cons]
      · have hcasep : d.base_type ≠ "caseCount" := by simpa using hcase
        cases hv : d.value with
        | none =>
          have e1 : famVals (d :: rest) true = famVals rest true := by
            simp [famVals, List.filterMap_cons, famKey, hincp, hcasep, hv]
          have e2 : famVals (d :: rest) false = famVals rest false := by
            simp [famVals, List.filterMap_cons, famKey, hincp, hcasep, hv]
          have e3 : incrStep mm d = mm := by
            simp [incrStep, hinc, hcase, hv, pymaxStep]
          rw [e1, e2, e3]
        | some x =>
          have e1 : famVals (d :: rest) true = famVals rest true := by
            simp [famVals, List.filterMap_cons, famKey, hincp, hcasep, hv]
          have e2 : famVals (d :: rest) false = x :: famVals rest false := by
            simp [famVals, List.filterMap_cons, famKey, hincp, hcasep, hv]
          have e3 : incrStep mm d = (mm.1, maxStep mm.2 x) := by
            simp [incrStep, hinc, hcase, hv, pymaxStep, maxStep]
          rw [e1, e2, e3, List.foldl_cons]
    · have hincp : d.aggregation ≠ some "incremental" := by simpa using hinc
      have e1 : famVals (d :: rest) true = famVals rest true := by
        simp [famVals, List.filterMap_cons, hincp]
      have e2 : famVals (d :: rest) false = famVals rest false := by
        simp [famVals, List.filterMap_cons, hincp]
      have e3 : incrStep mm d = mm := by
        simp [incrStep, hinc]
      rw [e1, e2, e3]

theorem incrMaxes_case (drafts : List Draft)
    (hfam : ∀ x ∈ famVals drafts true, 0 ≤ x) :
    (incrMaxes drafts).1 =
      (match listMaxI (famVals drafts true) with
       | none => (-1 : Int)
       | some M => M) := by
  unfold incrMaxes
  rw [foldl_incrStep_eq]
  simp only []
  rw [foldl_maxStep_eq]
  cases hM : listMaxI (famVals drafts true) with
  | none => rfl
  | some M =>
    have h0 : (0 : Int) ≤ M := hfam M (listMaxI_mem hM)
    simp only [maxStep]
    rw [if_pos (by omega : (-1 : Int) < M)]

theorem incrMaxes_death (drafts : List Draft)
    (hfam : ∀ x ∈ famVals drafts false, 0 ≤ x) :
    (incrMaxes drafts).2 =
      (match listMaxI (famVals drafts false) with
       | none => (-1 : Int)
       | some M => M) := by
  unfold incrMaxes
  rw [foldl_incrStep_eq]
  simp only []
  rw [foldl_maxStep_eq]
  cases hM : listMaxI (famVals drafts false) with
  | none => rfl
  | some M =>
    have h0 : (0 : Int) ≤ M := hfam M (listMaxI_mem hM)
    simp only [maxStep]
    rw [if_pos (by omega : (-1 : Int) < M)]

theorem famVals_value {drafts : List Draft} {b : Bool} {x : Int}
    (hx : x ∈ famVals drafts b) : ∃ e ∈ drafts, e.value = some x := by
  obtain ⟨e, he, hfe⟩ := List.mem_filterMap.mp hx
  refine ⟨e, he, ?_⟩
  by_cases hc : (e.aggregation == some "incremental" && (famKey e == b)) = true
  · rw [if_pos hc] at hfe; exact hfe
  · rw [if_neg hc] at hfe; exact absurd hfe (by simp)

theorem markCumulative_spec (drafts : List Draft) (d : Draft)
    (hnn : ∀ b, ∀ x ∈ famVals drafts b, 0 ≤ x)
    (hd : d.aggregation = none) :
    markCumulative (incrMaxes drafts) d =
      (if specExceedsB drafts d = true then { d with aggregation := some "cumulative" }
       else d) := by
  have hdn : d.aggregation.isNone = true := by rw [hd]; rfl
  unfold markCumulative
  rw [if_pos hdn]
  have hfam : famIncrMax drafts d.base_type = listMaxI (famVals drafts (famKey d)) := rfl
  by_cases hcase : (d.base_type == "caseCount") = true
  · rw [if_pos hcase]
    have hkey : famKey d = true := hcase
    rw [incrMaxes_case drafts (hnn true)]
    cases hM : listMaxI (famVals drafts true) with
    | none =>
      simp only []
      rw [if_neg (by omega : ¬ ((0:Int) ≤ -1 ∧ valAbove d.value (-1) = true))]
      have : specExceedsB drafts d = false := by
        unfold specExceedsB
        rw [hfam, hkey, hM]
        cases d.value <;> rfl
      rw [this]
      simp
    | some M =>
      simp only []
      have h0 : (0 : Int) ≤ M := (hnn true) M (listMaxI_mem hM)
      have hspec : specExceedsB drafts d = valAbove d.value M := by
        unfold specExceedsB
        rw [hfam, hkey, hM]
        cases d.value <;> rfl
      rw [hspec]
      cases hva : valAbove d.value M with
      | true => rw [if_pos ⟨h0, rfl⟩, if_pos rfl]
      | false =>
        rw [if_neg (by simp), if_neg (by simp)]
  · rw [if_neg hcase]
    have hkey : famKey d = false := by
      unfold famKey
      exact Bool.not_eq_true _ ▸ (by simpa using hcase)
    rw [incrMaxes_death drafts (hnn false)]
    cases hM : listMaxI (famVals drafts false) with
    | none =>
      simp only []
      rw [if_neg (by omega : ¬ ((0:Int) ≤ -1 ∧ valAbove d.value (-1) = true))]
      have : specExceedsB drafts d = false := by
        unfold specExceedsB
        rw [hfam, hkey, hM]
        cases d.value <;> rfl
      rw [this]
      simp
    | some M =>
      simp only []
      have h0 : (0 : Int) ≤ M := (hnn false) M (listMaxI_mem hM)
      have hspec : specExceedsB drafts d = valAbove d.value M := by
        unfold specExceedsB
        rw [hfam, hkey, hM]
        cases d.value <;> rfl
      rw [hspec]
      cases hva : valAbove d.value M with
      | true => rw [if_pos ⟨h0, rfl⟩, if_pos rfl]
      | false =>
        rw [if_neg (by simp), if_neg (by simp)]

theorem draftOfCell_value {parse : String → Option Int} {ctx : RowCtx}
    {cv : ColumnDef × Option AnnoSpan} {d : Draft}
    (h : draftOfCell parse ctx cv = some d) : ∃ s, d.value = parse s := by
  obtain ⟨c, v⟩ := cv
  cases v with
  | none => exact absurd h (by simp [draftOfCell])
  | some val =>
    unfold draftOfCell at h
    dsimp only at h
    by_cases ht : (c.type == "number") = true
    · rw [if_pos ht] at h
      injection h with h2
      subst h2
      exact ⟨val.text, rfl⟩
    · rw [if_neg ht] at h
      exact absurd h (by simp)

theorem rowDrafts_value_nonneg {parse : String → Option Int}
    (hpos : ∀ s v, parse s = some v → 0 ≤ v) (cols : List ColumnDef)
    (row : List (Option AnnoSpan)) :
    ∀ b, ∀ x ∈ famVals (rowDrafts parse cols row) b, 0 ≤ x := by
  intro b x hx
  obtain ⟨e, he, hev⟩ := famVals_value hx
  obtain ⟨cv, _, hcell⟩ := List.mem_filterMap.mp he
  obtain ⟨s, hs⟩ := draftOfCell_value hcell
  exact hpos s x (hs ▸ hev)

theorem capitalizeStr_length (s : String) : (capitalizeStr s).length = s.length := by
  unfold capitalizeStr
  cases hd : s.data with
  | nil =>
    show ("" : String).length = s.length
    have : s.length = s.data.length := rfl
    rw [this, hd]
    rfl
  | cons c cs =>
    show (String.mk (c.toUpper :: cs)).length = s.length
    have h1 : (String.mk (c.toUpper :: cs)).length = cs.length + 1 := by
      show (c.toUpper :: cs).length = cs.length + 1
      simp
    have h2 : s.length = s.data.length := rfl
    rw [h1, h2, hd]
    simp

theorem self_ne_cumulative (s : String) : s ≠ "cumulative" ++ capitalizeStr s := by
  intro h
  have hlen := congrArg String.length h
  rw [String.length_append, capitalizeStr_length] at hlen
  have : ("cumulative" : String).length = 10 := rfl
  omega

theorem processRow_getElem (parse : String → Option Int) (cols : List ColumnDef)
    (row : List (Option AnnoSpan)) (i : Nat) :
    (processRow parse cols row)[i]? =
      ((rowDrafts parse cols row)[i]?).map
        (fun d => finalizeDraft (markCumulative (incrMaxes (rowDrafts parse cols row)) d)) := by
  unfold processRow
  rw [List.getElem?_map, List.getElem?_map, Option.map_map]
  rfl

theorem finalizeDraft_type_marked (d : Draft) :
    (finalizeDraft { d with aggregation := some "cumulative" }).type =
      "cumulative" ++ capitalizeStr d.base_type := by
  unfold finalizeDraft
  simp

theorem finalizeDraft_type_plain (d : Draft) (hd : d.aggregation = none) :
    (finalizeDraft d).type = d.base_type := by
  unfold finalizeDraft
  rw [hd]
  simp

/-- The modelled shared parser only produces nonnegative values. -/
theorem parse_spelled_number_nonneg :
    ∀ s v, parse_spelled_number s = some v → 0 ≤ v := by
  intro s v h
  unfold parse_spelled_number at h
  cases hp : parseDigits s with
  | none => rw [hp] at h; exact absurd h (by simp)
  | some n =>
    rw [hp] at h
    have h4 : some ((n : Int)) = some v := h
    injection h4 with h3
    omega

/-! ## Claim theorems -/

/-- C2: for every row of a typed table, the synthesizer computes — separately
for the caseCount family and the deathCount family — the maximum value among
drafts already marked incremental; every draft whose aggregation is still
undetermined and whose value exceeds that family's incremental maximum is
emitted with the cumulative-prefixed type, and every draft that remains
undetermined is emitted with its plain base type. -/
theorem C2_cumulative_resolution (parse : String → Option Int)
    (hpos : ∀ s v, parse s = some v → 0 ≤ v)
    (cols : List ColumnDef) (row : List (Option AnnoSpan)) :
    ∀ (i : Nat) (d : Draft),
      (rowDrafts parse cols row)[i]? = some d → d.aggregation = none →
      ((processRow parse cols row)[i]?).map Incident.type =
        some (if specExceedsB (rowDrafts parse cols row) d = true
              then "cumulative" ++ capitalizeStr d.base_type
              else d.base_type) := by
  intro i d hi hagg
  rw [processRow_getElem, hi]
  show some (finalizeDraft (markCumulative (incrMaxes (rowDrafts parse cols row)) d)).type =
    some (if specExceedsB (rowDrafts parse cols row) d = true
          then "cumulative" ++ capitalizeStr d.base_type else d.base_type)
  rw [markCumulative_spec (rowDrafts parse cols row) d
    (rowDrafts_value_nonneg hpos cols row) hagg]
  cases hx : specExceedsB (rowDrafts parse cols row) d with
  | true =>
    rw [if_pos rfl, if_pos rfl, finalizeDraft_type_marked]
  | false =>
    rw [if_neg (by simp), if_neg (by simp), finalizeDraft_type_plain d hagg]

theorem C2_witness :
    (∀ s v, parse_spelled_number s = some v → 0 ≤ v) ∧
    ((processRow parse_spelled_number
        [⟨some "New", "number"⟩, ⟨some "Confirmed", "number"⟩]
        [some ⟨0, 1, "3"⟩, some ⟨2, 5, "293"⟩])[1]?).map Incident.type =
      some (if specExceedsB
              (rowDrafts parse_spelled_number
                [⟨some "New", "number"⟩, ⟨some "Confirmed", "number"⟩]
                [some ⟨0, 1, "3"⟩, some ⟨2, 5, "293"⟩])
              { base_type := "caseCount", aggregation := none, value := some 293,
                attributes := ["confirmed"], location := none, dateRange := none,
                start := 2, stop := 5 } = true
            then "cumulative" ++ capitalizeStr "caseCount"
            else "caseCount") :=
  ⟨parse_spelled_number_nonneg,
    C2_cumulative_resolution parse_spelled_number parse_spelled_number_nonneg
      [⟨some "New", "number"⟩, ⟨some "Confirmed", "number"⟩]
      [some ⟨0, 1, "3"⟩, some ⟨2, 5, "293"⟩] 1
      { base_type := "caseCount", aggregation := none, value := some 293,
        attributes := ["confirmed"], location := none, dateRange := none,
        start := 2, stop := 5 }
      (by decide) rfl⟩

theorem specExceedsB_true {drafts : List Draft} {d : Draft}
    (h : specExceedsB drafts d = true) :
    ∃ v M, d.value = some v ∧ famIncrMax drafts d.base_type = some M ∧ M < v := by
  unfold specExceedsB at h
  cases hv : d.value with
  | none =>
    rw [hv] at h
    cases hM : famIncrMax drafts d.base_type <;> rw [hM] at h <;> simp at h
  | some v =>
    cases hM : famIncrMax drafts d.base_type with
    | none => rw [hv, hM] at h; simp at h
    | some M =>
      rw [hv, hM] at h
      exact ⟨v, M, rfl, rfl, by simpa using h⟩

/-- C3, counterexample to the claim as stated: in a row with a "new"-headed
cell of value 10 and a "total"-headed cell of value 5, the total cell is
finalized as `cumulativeCaseCount` with value 5, which is not strictly
greater than the incremental sibling's value 10. -/
theorem C3_counterexample :
    ((rowDrafts parse_spelled_number
        [⟨some "New Cases", "number"⟩, ⟨some "Total Cases", "number"⟩]
        [some ⟨0, 2, "10"⟩, some ⟨3, 4, "5"⟩])[0]?).map Draft.aggregation
        = some (some "incremental") ∧
    ((rowDrafts parse_spelled_number
        [⟨some "New Cases", "number"⟩, ⟨some "Total Cases", "number"⟩]
        [some ⟨0, 2, "10"⟩, some ⟨3, 4, "5"⟩])[0]?).map Draft.value
        = some (some 10) ∧
    ((rowDrafts parse_spelled_number
        [⟨some "New Cases", "number"⟩, ⟨some "Total Cases", "number"⟩]
        [some ⟨0, 2, "10"⟩, some ⟨3, 4, "5"⟩])[0]?).map Draft.base_type
        = some "caseCount" ∧
    ((processRow parse_spelled_number
        [⟨some "New Cases", "number"⟩, ⟨some "Total Cases", "number"⟩]
        [some ⟨0, 2, "10"⟩, some ⟨3, 4, "5"⟩])[1]?).map Incident.type
        = some "cumulativeCaseCount" ∧
    ((processRow parse_spelled_number
        [⟨some "New Cases", "number"⟩, ⟨some "Total Cases", "number"⟩]
        [some ⟨0, 2, "10"⟩, some ⟨3, 4, "5"⟩])[1]?).map Incident.value
        = some (some 5) ∧
    ¬ ((10 : Int) < 5) := by decide

/-- C3 (amended): a finalized incident whose draft aggregation was still
undetermined after draft construction and which is emitted with a
cumulative-prefixed type has a numeric value strictly greater than the
parsed value of every incremental-marked draft of the same base-type family
in the same row.  (Incidents pre-marked cumulative by a "total" column
header are exempt, as the counterexample shows.) -/
theorem C3_amended_max_rule (parse : String → Option Int)
    (hpos : ∀ s v, parse s = some v → 0 ≤ v)
    (cols : List ColumnDef) (row : List (Option AnnoSpan)) :
    ∀ (i : Nat) (d : Draft),
      (rowDrafts parse cols row)[i]? = some d → d.aggregation = none →
      ((processRow parse cols row)[i]?).map Incident.type =
        some ("cumulative" ++ capitalizeStr d.base_type) →
      ∀ e ∈ rowDrafts parse cols row, e.aggregation = some "incremental" →
        famKey e = famKey d → ∀ w : Int, e.value = some w →
        ∃ v : Int, d.value = some v ∧ w < v := by
  intro i d hi hagg htype e he hinc hfam w hw
  rw [processRow_getElem, hi] at htype
  have htype2 : (finalizeDraft (markCumulative (incrMaxes (rowDrafts parse cols row)) d)).type
      = "cumulative" ++ capitalizeStr d.base_type := by
    have h5 : some ((finalizeDraft (markCumulative (incrMaxes (rowDrafts parse cols row)) d)).type)
        = some ("cumulative" ++ capitalizeStr d.base_type) := htype
    injection h5
  rw [markCumulative_spec (rowDrafts parse cols row) d
    (rowDrafts_value_nonneg hpos cols row) hagg] at htype2
  cases hx : specExceedsB (rowDrafts parse cols row) d with
  | false =>
    rw [hx] at htype2
    rw [if_neg (by simp)] at htype2
    rw [finalizeDraft_type_plain d hagg] at htype2
    exact absurd htype2 (self_ne_cumulative d.base_type)
  | true =>
    obtain ⟨v, M, hv, hM, hMv⟩ := specExceedsB_true hx
    have hwmem : w ∈ famVals (rowDrafts parse cols row) (famKey d) := by
      apply List.mem_filterMap.mpr
      refine ⟨e, he, ?_⟩
      rw [if_pos (by simp [hinc, hfam])]
      exact hw
    have hM2 : listMaxI (famVals (rowDrafts parse cols row) (famKey d)) = some M := hM
    have hwM : w ≤ M := listMaxI_ge hM2 hwmem
    exact ⟨v, hv, by omega⟩

theorem C3_witness :
    (∀ s v, parse_spelled_number s = some v → 0 ≤ v) ∧
    ∃ v : Int,
      ({ base_type := "caseCount", aggregation := none, value := some 293,
         attributes := ["confirmed"], location := none, dateRange := none,
         start := 2, stop := 5 } : Draft).value = some v ∧ (3 : Int) < v :=
  ⟨parse_spelled_number_nonneg,
    C3_amended_max_rule parse_spelled_number parse_spelled_number_nonneg
      [⟨some "New", "number"⟩, ⟨some "Confirmed", "number"⟩]
      [some ⟨0, 1, "3"⟩, some ⟨2, 5, "293"⟩] 1
      { base_type := "caseCount", aggregation := none, value := some 293,
        attributes := ["confirmed"], location := none, dateRange := none,
        start := 2, stop := 5 }
      (by decide) rfl (by decide)
      { base_type := "caseCount", aggregation := some "incremental",
        value := some 3, attributes := [], location := none, dateRange := none,
        start := 0, stop := 1 }
      (by decide) rfl rfl 3 rfl⟩

/-- C4, counterexample to the claim as stated: a numeric span that overlaps
the single row-0 cell without being contained in it leaves the row classified
as a header, although the claim's "no overlap" reading says it must not be. -/
theorem C4_counterexample :
    hasHeader [⟨3, 8, "12cde"⟩] [⟨0, 5, "ab 12"⟩] = true ∧
    spanOverlaps ⟨0, 5, "ab 12"⟩ ⟨3, 8, "12cde"⟩ = true := by decide

/-- C4 (amended): row 0 is treated as a header iff no cell of row 0 fully
contains a recognized numeric-entity span (the grouping operation used is
containment, not overlap); the header row is dropped from the data rows
exactly when detected, with no special case for single-row tables. -/
theorem C4_amended_header_rule (numbers row0 : List AnnoSpan)
    (rest : List (List AnnoSpan)) :
    (hasHeader numbers row0 = true ↔
      ∀ c ∈ row0, ∀ n ∈ numbers, spanContains c n = false) ∧
    (hasHeader numbers row0 = true → tableDataRows numbers row0 rest = rest) ∧
    (hasHeader numbers row0 = false → tableDataRows numbers row0 rest = row0 :: rest) := by
  refine ⟨?_, ?_, ?_⟩
  · unfold hasHeader groupSpansByContainingSpan
    rw [List.all_eq_true]
    constructor
    · intro h c hc n hn
      have h2 := h (c, numbers.filter (fun i => spanContains c i))
        (List.mem_map.mpr ⟨c, hc, rfl⟩)
      have hnil : numbers.filter (fun i => spanContains c i) = [] :=
        List.length_eq_zero.mp (by simpa using h2)
      by_contra hcn
      have hmem : n ∈ numbers.filter (fun i => spanContains c i) :=
        List.mem_filter.mpr ⟨hn, by simpa using hcn⟩
      rw [hnil] at hmem
      exact List.not_mem_nil n hmem
    · intro h p hp
      obtain ⟨c, hc, rfl⟩ := List.mem_map.mp hp
      have hnil : numbers.filter (fun i => spanContains c i) = [] := by
        apply List.filter_eq_nil_iff.mpr
        intro n hn
        simp [h c hc n hn]
      simp [hnil]
  · intro h
    unfold tableDataRows
    rw [if_pos h]
  · intro h
    unfold tableDataRows
    rw [if_neg (by simp [h])]

theorem C4_witness :
    hasHeader [] [⟨0, 1, "a"⟩] = true ∧
    tableDataRows [] [⟨0, 1, "a"⟩] [] = [] :=
  ⟨by decide, (C4_amended_header_rule [] [⟨0, 1, "a"⟩] []).2.1 (by decide)⟩

/-- C10: the number validator is total on nonempty strings — it returns a
boolean — but on the empty string its unguarded first-character access
raises (modelled as `none`), so callers must guarantee nonempty input. -/
theorem C10_validator_totality :
    is_valid_number "" = none ∧
    ∀ s : String, s ≠ "" → ∃ b, is_valid_number s = some b := by
  constructor
  · rfl
  · intro s hs
    obtain ⟨data⟩ := s
    cases data with
    | nil => exact absurd rfl hs
    | cons c cs => exact ⟨_, rfl⟩

theorem C10_witness :
    ("5" : String) ≠ "" ∧ ∃ b, is_valid_number "5" = some b :=
  ⟨by decide, C10_validator_totality.2 "5" (by decide)⟩

/-- C8: if a database file already exists at the target path, the build
operation returns without error and without modifying any state: no table
is created, no row written, no file replaced. -/
theorem C8_existing_db_refusal (input : List GeoRecord) (st : BuildState)
    (h : st.dbExists = true) : create_sqlite_db input st = st := by
  unfold create_sqlite_db
  rw [if_pos h]

theorem C8_witness :
    (BuildState.mk true none).dbExists = true ∧
    create_sqlite_db [] (BuildState.mk true none) = BuildState.mk true none :=
  ⟨rfl, C8_existing_db_refusal [] (BuildState.mk true none) rfl⟩

theorem parse_number_policy (pint : String → Option Int)
    (pfloat : String → Option Rat) (raw : String) :
    lenientParsePolicy pint pfloat raw (parse_number pint pfloat raw (NumVal.int 0)) := by
  unfold lenientParsePolicy parse_number
  refine ⟨?_, ?_, ?_⟩
  · intro n h
    rw [h]
  · intro h q hq
    rw [h, hq]
  · intro h hq
    rw [h, hq]

/-- C9: each of the population, latitude and longitude fields is parsed by
first attempting integer parsing, then float parsing, and on failure of both
the default 0 is substituted; the parse is total (never raises) for
arbitrary parser outcomes. -/
theorem C9_lenient_numeric_parse (pint : String → Option Int)
    (pfloat : String → Option Rat) (d : RawGeoRow) :
    lenientParsePolicy pint pfloat d.population (processGeoRow pint pfloat d).population ∧
    lenientParsePolicy pint pfloat d.latitude (processGeoRow pint pfloat d).latitude ∧
    lenientParsePolicy pint pfloat d.longitude (processGeoRow pint pfloat d).longitude :=
  ⟨parse_number_policy pint pfloat d.population,
   parse_number_policy pint pfloat d.latitude,
   parse_number_policy pint pfloat d.longitude⟩

theorem C9_witness :
    parse_spelled_number "4.5x" = none ∧
    (processGeoRow parse_spelled_number (fun _ => none)
      (RawGeoRow.mk "1" "X" "" "1" "2" "4.5x")).population = NumVal.int 0 :=
  ⟨by decide, (C9_lenient_numeric_parse parse_spelled_number (fun _ => none)
      (RawGeoRow.mk "1" "X" "" "1" "2" "4.5x")).1.2.2 (by decide) rfl⟩

/-- C7, counterexample to the claim as stated: the raw alternate-names field
"a,,b" comma-splits into a list containing the empty string, and the
importer then inserts an alternate-name row whose alternatename value is the
empty string. -/
theorem C7_counterexample :
    ((buildDatabase [processGeoRow parse_spelled_number (fun _ => none)
        (RawGeoRow.mk "1" "X" "a,,b" "0" "0" "0")]).alternatenames).any
      (fun t => t.2.1 == "") = true := by decide

/-- C7 (amended): provided the canonical name is nonempty and every
comma-separated component of the alternate-names field is nonempty, no
alternate-name entry with an empty value is inserted; unconditionally, every
place receives at least one alternate-name entry — its canonical name. -/
theorem C7_amended_no_empty_altnames (pint : String → Option Int)
    (pfloat : String → Option Rat) (d : RawGeoRow) :
    (d.name ≠ "" →
      (∀ a ∈ (processGeoRow pint pfloat d).alternatenames, a ≠ "") →
      ∀ t ∈ alternatenameTuples (processGeoRow pint pfloat d), t.2.1 ≠ "") ∧
    ((processGeoRow pint pfloat d).geonameid, (processGeoRow pint pfloat d).name,
      pyStrip (strLower (processGeoRow pint pfloat d).name)) ∈
        alternatenameTuples (processGeoRow pint pfloat d) ∧
    0 < (alternatenameTuples (processGeoRow pint pfloat d)).length := by
  have hnmem : ((processGeoRow pint pfloat d).geonameid,
      (processGeoRow pint pfloat d).name,
      pyStrip (strLower (processGeoRow pint pfloat d).name)) ∈
        alternatenameTuples (processGeoRow pint pfloat d) := by
    apply List.mem_map.mpr
    exact ⟨(processGeoRow pint pfloat d).name,
      List.mem_dedup.mpr (List.mem_append.mpr (Or.inr (by simp))), rfl⟩
  refine ⟨?_, hnmem, List.length_pos_of_mem hnmem⟩
  intro hname halts t ht hte
  obtain ⟨a, ha, rfl⟩ := List.mem_map.mp ht
  have ha2 : a ∈ (processGeoRow pint pfloat d).alternatenames ++
      [(processGeoRow pint pfloat d).name] := List.mem_dedup.mp ha
  rcases List.mem_append.mp ha2 with h1 | h1
  · exact halts a h1 hte
  · have h3 : a = (processGeoRow pint pfloat d).name := by simpa using h1
    rw [h3] at hte
    exact hname hte

theorem C7_witness :
    (("X" : String) ≠ "") ∧
    (∀ a ∈ (processGeoRow parse_spelled_number (fun _ => none)
        (RawGeoRow.mk "1" "X" "a,b" "0" "0" "0")).alternatenames, a ≠ "") ∧
    (∀ t ∈ alternatenameTuples (processGeoRow parse_spelled_number (fun _ => none)
        (RawGeoRow.mk "1" "X" "a,b" "0" "0" "0")), t.2.1 ≠ "") ∧
    0 < (alternatenameTuples (processGeoRow parse_spelled_number (fun _ => none)
        (RawGeoRow.mk "1" "X" "a,b" "0" "0" "0"))).length :=
  ⟨by decide, by decide,
   (C7_amended_no_empty_altnames parse_spelled_number (fun _ => none)
      (RawGeoRow.mk "1" "X" "a,b" "0" "0" "0")).1 (by decide) (by decide),
   (C7_amended_no_empty_altnames parse_spelled_number (fun _ => none)
      (RawGeoRow.mk "1" "X" "a,b" "0" "0" "0")).2.2⟩

theorem map_tuple_filter_eq (x gid : String) (h : String → String) (l : List String) :
    (l.map (fun a => (x, a, h a))).filter (fun t => t.1 == gid) =
      if x == gid then l.map (fun a => (x, a, h a)) else [] := by
  induction l with
  | nil => cases hx : (x == gid) <;> simp [hx]
  | cons a l ih => cases hx : (x == gid) <;> simp [hx, List.filter_cons, ih]

theorem alternatenameTuples_filter (g : GeoRecord) (gid : String) :
    (alternatenameTuples g).filter (fun t => t.1 == gid) =
      if g.geonameid == gid then alternatenameTuples g else [] := by
  unfold alternatenameTuples
  exact map_tuple_filter_eq g.geonameid gid _ _

theorem allAltTuples_fst : ∀ (rows : List GeoRecord) (t : String × String × String),
    t ∈ allAltTuples rows → ∃ g ∈ rows, t.1 = g.geonameid := by
  intro rows
  induction rows with
  | nil => intro t ht; simp [allAltTuples] at ht
  | cons r rs ih =>
    intro t ht
    rcases List.mem_append.mp (by simpa [allAltTuples] using ht) with h1 | h1
    · obtain ⟨a, _, rfl⟩ := List.mem_map.mp h1
      exact ⟨r, by simp, rfl⟩
    · obtain ⟨g, hg, he⟩ := ih t h1
      exact ⟨g, by simp [hg], he⟩

theorem allAltTuples_filter (rows : List GeoRecord)
    (hids : (rows.map GeoRecord.geonameid).Nodup) (g : GeoRecord) (hg : g ∈ rows) :
    (allAltTuples rows).filter (fun t => t.1 == g.geonameid) = alternatenameTuples g := by
  induction rows with
  | nil => simp at hg
  | cons r rs ih =>
    rw [List.map_cons] at hids
    have hnd := List.nodup_cons.mp hids
    rw [show allAltTuples (r :: rs) = alternatenameTuples r ++ allAltTuples rs from rfl,
      List.filter_append]
    rcases List.mem_cons.mp hg with rfl | hg2
    · rw [alternatenameTuples_filter, if_pos (by simp)]
      have hnil : (allAltTuples rs).filter (fun t => t.1 == g.geonameid) = [] := by
        apply List.filter_eq_nil_iff.mpr
        intro t ht hbeq
        obtain ⟨g', hg', he⟩ := allAltTuples_fst rs t ht
        have heq : g.geonameid = g'.geonameid := by
          rw [← he]
          exact (eq_of_beq hbeq).symm
        exact hnd.1 (heq ▸ List.mem_map.mpr ⟨g', hg', rfl⟩)
      rw [hnil, List.append_nil]
    · have hne : r.geonameid ≠ g.geonameid := by
        intro hEq
        exact hnd.1 (hEq ▸ List.mem_map.mpr ⟨g, hg2, rfl⟩)
      rw [alternatenameTuples_filter, if_neg (by simp [hne])]
      rw [List.nil_append]
      exact ih hnd.2 hg2

theorem filter_gid_twice (alts : List (String × String × String)) (x gid : String) :
    (alts.filter (fun a => a.1 == x)).filter (fun a => a.1 == gid) =
      if x == gid then alts.filter (fun a => a.1 == gid) else [] := by
  by_cases hx : (x == gid) = true
  · have hxe : x = gid := eq_of_beq hx
    subst hxe
    rw [if_pos hx]
    simp [List.filter_filter]
  · rw [if_neg hx]
    apply List.filter_eq_nil_iff.mpr
    intro a ha hbeq
    have h1 : a.1 = x := eq_of_beq (List.mem_filter.mp ha).2
    have h2 : a.1 = gid := eq_of_beq hbeq
    have hxg : x = gid := by rw [← h1, h2]
    exact hx (beq_iff_eq.mpr hxg)

theorem joinedAlts_fst : ∀ (rows : List GeoRecord)
    (alts : List (String × String × String)) (t : String × String × String),
    t ∈ joinedAlts rows alts → ∃ g ∈ rows, t.1 = g.geonameid := by
  intro rows alts
  induction rows with
  | nil => intro t ht; simp [joinedAlts] at ht
  | cons r rs ih =>
    intro t ht
    have ht2 : t ∈ alts.filter (fun a => a.1 == r.geonameid) ++ joinedAlts rs alts := ht
    rcases List.mem_append.mp ht2 with h1 | h1
    · exact ⟨r, by simp, eq_of_beq (List.mem_filter.mp h1).2⟩
    · obtain ⟨g, hg, he⟩ := ih t h1
      exact ⟨g, by simp [hg], he⟩

theorem joinedAlts_filter (rows : List GeoRecord)
    (alts : List (String × String × String))
    (hids : (rows.map GeoRecord.geonameid).Nodup) (g : GeoRecord) (hg : g ∈ rows) :
    (joinedAlts rows alts).filter (fun t => t.1 == g.geonameid) =
      alts.filter (fun t => t.1 == g.geonameid) := by
  induction rows with
  | nil => simp at hg
  | cons r rs ih =>
    rw [List.map_cons] at hids
    have hnd := List.nodup_cons.mp hids
    rw [show joinedAlts (r :: rs) alts =
        alts.filter (fun a => a.1 == r.geonameid) ++ joinedAlts rs alts from rfl,
      List.filter_append, filter_gid_twice]
    rcases List.mem_cons.mp hg with rfl | hg2
    · rw [if_pos (beq_self_eq_true g.geonameid)]
      have hnil : (joinedAlts rs alts).filter (fun t => t.1 == g.geonameid) = [] := by
        apply List.filter_eq_nil_iff.mpr
        intro t ht hbeq
        obtain ⟨g', hg', he⟩ := joinedAlts_fst rs alts t ht
        have heq : g.geonameid = g'.geonameid := by
          rw [← he]
          exact (eq_of_beq hbeq).symm
        exact hnd.1 (heq ▸ List.mem_map.mpr ⟨g', hg', rfl⟩)
      rw [hnil, List.append_nil]
    · have hne : r.geonameid ≠ g.geonameid := by
        intro hEq
        exact hnd.1 (hEq ▸ List.mem_map.mpr ⟨g, hg2, rfl⟩)
      rw [if_neg (by simp [hne])]
      rw [List.nil_append]
      exact ih hnd.2 hg2

theorem joinedAlts_mem (rows : List GeoRecord)
    (alts : List (String × String × String)) (g : GeoRecord) (hg : g ∈ rows)
    (t : String × String × String)
    (ht : t ∈ alts.filter (fun a => a.1 == g.geonameid)) :
    t ∈ joinedAlts rows alts := by
  induction rows with
  | nil => simp at hg
  | cons r rs ih =>
    rcases List.mem_cons.mp hg with rfl | hg2
    · show t ∈ alts.filter (fun a => a.1 == g.geonameid) ++ joinedAlts rs alts
      exact List.mem_append.mpr (Or.inl ht)
    · show t ∈ alts.filter (fun a => a.1 == r.geonameid) ++ joinedAlts rs alts
      exact List.mem_append.mpr (Or.inr (ih hg2))

/-- C6: after a successful build (geoname ids pairwise distinct, as the
primary key enforces), the stored alternatename_counts row of every imported
place equals the number of distinct alternate-name entries inserted for it,
i.e. the size of the deduplicated union of its comma-split alternate names
and its canonical name. -/
theorem C6_altname_counts (rows : List GeoRecord)
    (hids : (rows.map GeoRecord.geonameid).Nodup) :
    ∀ g ∈ rows,
      (∃ c ∈ (buildDatabase rows).alternatename_counts, c.1 = g.geonameid) ∧
      (∀ c ∈ (buildDatabase rows).alternatename_counts, c.1 = g.geonameid →
        c.2 = ((g.alternatenames ++ [g.name]).dedup).length) := by
  intro g hg
  have hjf : (joinedAlts rows (allAltTuples rows)).filter (fun t => t.1 == g.geonameid)
      = alternatenameTuples g := by
    rw [joinedAlts_filter rows (allAltTuples rows) hids g hg]
    exact allAltTuples_filter rows hids g hg
  have hnt : (g.geonameid, g.name, pyStrip (strLower g.name)) ∈ alternatenameTuples g := by
    apply List.mem_map.mpr
    exact ⟨g.name, List.mem_dedup.mpr (List.mem_append.mpr (Or.inr (by simp))), rfl⟩
  have hjm : (g.geonameid, g.name, pyStrip (strLower g.name)) ∈
      joinedAlts rows (allAltTuples rows) := by
    apply joinedAlts_mem rows (allAltTuples rows) g hg
    rw [allAltTuples_filter rows hids g hg]
    exact hnt
  have hgidmem : g.geonameid ∈
      ((joinedAlts rows (allAltTuples rows)).map (fun a => a.1)).dedup :=
    List.mem_dedup.mpr (List.mem_map.mpr ⟨_, hjm, rfl⟩)
  constructor
  · refine ⟨(g.geonameid,
      ((joinedAlts rows (allAltTuples rows)).filter
        (fun a => a.1 == g.geonameid)).length), ?_, rfl⟩
    show _ ∈ joinCounts rows (allAltTuples rows)
    unfold joinCounts
    exact List.mem_map.mpr ⟨g.geonameid, hgidmem, rfl⟩
  · intro c hc hcg
    have hc2 : c ∈ ((joinedAlts rows (allAltTuples rows)).map (fun a => a.1)).dedup.map
        (fun gid => (gid, ((joinedAlts rows (allAltTuples rows)).filter
          (fun a => a.1 == gid)).length)) := hc
    obtain ⟨gid, hgidm, hce⟩ := List.mem_map.mp hc2
    have h1 : c.1 = gid := by rw [← hce]
    have h2 : c.2 = ((joinedAlts rows (allAltTuples rows)).filter
        (fun a => a.1 == gid)).length := by rw [← hce]
    have hgid : gid = g.geonameid := by rw [← h1]; exact hcg
    rw [h2, hgid, hjf]
    unfold alternatenameTuples
    rw [List.length_map]

theorem C6_witness :
    (([GeoRecord.mk "1" "A" ["B"] (NumVal.int 0) (NumVal.int 0) (NumVal.int 0)].map
        GeoRecord.geonameid).Nodup) ∧
    ((∃ c ∈ (buildDatabase [GeoRecord.mk "1" "A" ["B"] (NumVal.int 0) (NumVal.int 0)
        (NumVal.int 0)]).alternatename_counts, c.1 = "1") ∧
     (∀ c ∈ (buildDatabase [GeoRecord.mk "1" "A" ["B"] (NumVal.int 0) (NumVal.int 0)
        (NumVal.int 0)]).alternatename_counts, c.1 = "1" →
        c.2 = ((["B"] ++ ["A"]).dedup).length)) :=
  ⟨by decide,
   C6_altname_counts
     [GeoRecord.mk "1" "A" ["B"] (NumVal.int 0) (NumVal.int 0) (NumVal.int 0)]
     (by decide)
     (GeoRecord.mk "1" "A" ["B"] (NumVal.int 0) (NumVal.int 0) (NumVal.int 0))
     (by decide)⟩

/-- C5: the numeric-candidate validator accepts the one-character string
"0" and rejects every longer string whose first character is '0'; a
quantity/cardinal mention that is not itself a valid number but whose text
has exactly one joiner match (to/and/or surrounded by whitespace) is split
into two range-endpoint candidates, each added only if individually valid;
in particular "5 to 10" yields the two candidates 5 and 10. -/
theorem C5_number_validation :
    is_valid_number "0" = some true ∧
    (∀ s : String, s.data.head? = some '0' → 1 < s.length →
      is_valid_number s = some false) ∧
    (∀ (doc : List Char) (ne : NeSpan) (a b : Nat),
      (ne.label = "QUANTITY" ∨ ne.label = "CARDINAL") →
      is_valid_number (sliceStr doc ne.start ne.stop) = some false →
      findJoiners (sliceStr doc ne.start ne.stop) = [(a, b)] →
      ∀ vs ve : Bool,
        is_valid_number (sliceStr doc ne.start (ne.start + a)) = some vs →
        is_valid_number (sliceStr doc (ne.start + b) ne.stop) = some ve →
        numberCandidatesForSpan doc ne =
          some ((if vs then
                  [⟨ne.start, ne.start + a, sliceStr doc ne.start (ne.start + a)⟩]
                 else []) ++
                (if ve then
                  [⟨ne.start + b, ne.stop, sliceStr doc (ne.start + b) ne.stop⟩]
                 else []))) ∧
    numberCandidatesForSpan ("5 to 10".data) ⟨"CARDINAL", 0, 7⟩ =
      some [⟨0, 1, "5"⟩, ⟨5, 7, "10"⟩] ∧
    parse_spelled_number "5" = some 5 ∧ parse_spelled_number "10" = some 10 := by
  refine ⟨by decide, ?_, ?_, by decide, by decide, by decide⟩
  · intro s hhead hlen
    obtain ⟨data⟩ := s
    cases data with
    | nil => simp at hhead
    | cons c cs =>
      have hc : c = '0' := by simpa using hhead
      subst hc
      show some (if '0' == '0' && decide (1 < (String.mk ('0' :: cs)).length) then false
                 else (parse_spelled_number (String.mk ('0' :: cs))).isSome) = some false
      have hcond : ('0' == '0' && decide (1 < (String.mk ('0' :: cs)).length)) = true := by
        rw [Bool.and_eq_true]
        exact ⟨rfl, decide_eq_true hlen⟩
      rw [if_pos hcond]
  · intro doc ne a b hlab hval hjoin vs ve hs he
    unfold numberCandidatesForSpan
    have hl : (ne.label == "QUANTITY" || ne.label == "CARDINAL") = true := by
      rcases hlab with h | h <;> simp [h]
    rw [if_pos hl, hval, hjoin]
    simp only [hs, he]

theorem C5_witness :
    ("023" : String).data.head? = some '0' ∧ 1 < ("023" : String).length ∧
    is_valid_number "023" = some false :=
  ⟨rfl, by decide, C5_number_validation.2.1 "023" rfl (by decide)⟩

theorem typeEligible_iff (dates cols : List AnnoSpan) (nn : Nat)
    (e : String × List AnnoSpan) :
    typeEligible dates cols nn e = true ↔
      (0 < nn ∧ nn * 3 < typeMatchCount dates cols e * 10) := by
  simp [typeEligible]

theorem typeEligible_cnt_pos (dates cols : List AnnoSpan) (nn : Nat)
    {e : String × List AnnoSpan} (h : typeEligible dates cols nn e = true) :
    0 < typeMatchCount dates cols e := by
  have h2 := (typeEligible_iff dates cols nn e).mp h
  omega

theorem maxEligCount_cons (dates cols : List AnnoSpan) (nn : Nat)
    (e : String × List AnnoSpan) (es : List (String × List AnnoSpan)) :
    maxEligCount dates cols nn (e :: es) =
      if typeEligible dates cols nn e = true
      then max (typeMatchCount dates cols e) (maxEligCount dates cols nn es)
      else maxEligCount dates cols nn es := by
  unfold maxEligCount
  rw [List.filter_cons]
  by_cases h : typeEligible dates cols nn e = true
  · rw [if_pos h, if_pos h]
    rfl
  · rw [if_neg h, if_neg h]

theorem le_maxEligCount (dates cols : List AnnoSpan) (nn : Nat)
    {es : List (String × List AnnoSpan)} {e : String × List AnnoSpan}
    (he : e ∈ es) (helig : typeEligible dates cols nn e = true) :
    typeMatchCount dates cols e ≤ maxEligCount dates cols nn es := by
  induction es with
  | nil => simp at he
  | cons f fs ih =>
    rw [maxEligCount_cons]
    rcases List.mem_cons.mp he with rfl | h2
    · rw [if_pos helig]
      exact le_max_left _ _
    · by_cases hf : typeEligible dates cols nn f = true
      · rw [if_pos hf]
        exact le_trans (ih h2) (le_max_right _ _)
      · rw [if_neg hf]
        exact ih h2

theorem maxEligCount_attained (dates cols : List AnnoSpan) (nn : Nat)
    {es : List (String × List AnnoSpan)}
    (hpos : 0 < maxEligCount dates cols nn es) :
    ∃ e ∈ es, typeEligible dates cols nn e = true ∧
      typeMatchCount dates cols e = maxEligCount dates cols nn es := by
  induction es with
  | nil => simp [maxEligCount] at hpos
  | cons f fs ih =>
    rw [maxEligCount_cons] at hpos ⊢
    by_cases hf : typeEligible dates cols nn f = true
    · rw [if_pos hf] at hpos ⊢
      rcases le_total (maxEligCount dates cols nn fs) (typeMatchCount dates cols f)
        with hle | hle
      · exact ⟨f, by simp, hf, (max_eq_left hle).symm⟩
      · rw [max_eq_right hle] at hpos ⊢
        obtain ⟨e, he, h1, h2⟩ := ih hpos
        exact ⟨e, by simp [he], h1, h2⟩
    · rw [if_neg hf] at hpos ⊢
      obtain ⟨e, he, h1, h2⟩ := ih hpos
      exact ⟨e, by simp [he], h1, h2⟩

theorem colTypeLoop_stable (dates cols : List AnnoSpan) (nn : Nat) :
    ∀ (es : List (String × List AnnoSpan)) (maxM : Nat) (ct : String)
      (matching : Option (List (Option (List AnnoSpan)))),
      (∀ e ∈ es, typeEligible dates cols nn e = true →
        typeMatchCount dates cols e ≤ maxM) →
      colTypeLoop dates cols nn es maxM ct matching =
        (ct, matching.getD (cols.map (fun _ => none))) := by
  intro es
  induction es with
  | nil => intro maxM ct matching _; rfl
  | cons e rest ih =>
    intro maxM ct matching h
    rw [colTypeLoop]
    rw [if_neg (by
      rintro ⟨h1, h2, h3⟩
      have helig : typeEligible dates cols nn e = true :=
        (typeEligible_iff dates cols nn e).mpr ⟨h1, h2⟩
      have := h e (by simp) helig
      omega)]
    have hrest : ∀ e2 ∈ rest, typeEligible dates cols nn e2 = true →
        typeMatchCount dates cols e2 ≤ maxM :=
      fun e2 he2 => h e2 (List.mem_cons_of_mem _ he2)
    cases matching with
    | none =>
      show colTypeLoop dates cols nn rest maxM ct (some (cols.map (fun _ => none))) = _
      rw [ih maxM ct (some (cols.map (fun _ => none))) hrest]
      rfl
    | some x =>
      show colTypeLoop dates cols nn rest maxM ct (some x) = _
      rw [ih maxM ct (some x) hrest]

theorem colTypeLoop_wins (dates cols : List AnnoSpan) (nn : Nat) :
    ∀ (es : List (String × List AnnoSpan)) (maxM : Nat) (ct : String)
      (matching : Option (List (Option (List AnnoSpan)))),
      (∃ e ∈ es, typeEligible dates cols nn e = true ∧
        maxM < typeMatchCount dates cols e) →
      ∃ w, es.find? (fun e2 => typeEligible dates cols nn e2 &&
            (typeMatchCount dates cols e2 == maxEligCount dates cols nn es)) = some w ∧
        colTypeLoop dates cols nn es maxM ct matching =
          (w.1, columnEntities cols (filteredSpans dates w.1 w.2)) := by
  intro es
  induction es with
  | nil =>
    rintro maxM ct matching ⟨e, he, _⟩
    simp at he
  | cons e rest ih =>
    rintro maxM ct matching ⟨f, hf, hfe, hfgt⟩
    rw [colTypeLoop]
    by_cases hcond : (0 < nn ∧ nn * 3 < typeMatchCount dates cols e * 10 ∧
        maxM < typeMatchCount dates cols e)
    · rw [if_pos hcond]
      have helig : typeEligible dates cols nn e = true :=
        (typeEligible_iff dates cols nn e).mpr ⟨hcond.1, hcond.2.1⟩
      by_cases hrest : maxEligCount dates cols nn rest ≤ typeMatchCount dates cols e
      · have hM : maxEligCount dates cols nn (e :: rest) = typeMatchCount dates cols e := by
          rw [maxEligCount_cons, if_pos helig, max_eq_left hrest]
        refine ⟨e, ?_, ?_⟩
        · exact List.find?_cons_of_pos _ (by rw [hM]; simp [helig])
        · rw [colTypeLoop_stable dates cols nn rest (typeMatchCount dates cols e) e.1
            (some (columnEntities cols (filteredSpans dates e.1 e.2)))
            (fun e2 he2 helig2 =>
              le_trans (le_maxEligCount dates cols nn he2 helig2) hrest)]
          rfl
      · push_neg at hrest
        have hpos0 : 0 < maxEligCount dates cols nn rest :=
          lt_of_le_of_lt (Nat.zero_le _) hrest
        obtain ⟨g, hg, hgelig, hgcnt⟩ := maxEligCount_attained dates cols nn hpos0
        obtain ⟨w, hw1, hw2⟩ := ih (typeMatchCount dates cols e) e.1
          (some (columnEntities cols (filteredSpans dates e.1 e.2)))
          ⟨g, hg, hgelig, by omega⟩
        refine ⟨w, ?_, hw2⟩
        have hM : maxEligCount dates cols nn (e :: rest) =
            maxEligCount dates cols nn rest := by
          rw [maxEligCount_cons, if_pos helig, max_eq_right (le_of_lt hrest)]
        rw [hM]
        rw [List.find?_cons_of_neg _ (by simp [Nat.ne_of_lt hrest])]
        exact hw1
    · rw [if_neg hcond]
      have hfrest : f ∈ rest := by
        rcases List.mem_cons.mp hf with rfl | h2
        · exfalso
          apply hcond
          have h3 := (typeEligible_iff dates cols nn f).mp hfe
          exact ⟨h3.1, h3.2, hfgt⟩
        · exact h2
      obtain ⟨w, hw1, hw2⟩ := ih maxM ct
        (if matching.isNone then some (cols.map (fun _ => none)) else matching)
        ⟨f, hfrest, hfe, hfgt⟩
      refine ⟨w, ?_, hw2⟩
      have hcnt_f : typeMatchCount dates cols f ≤ maxEligCount dates cols nn rest :=
        le_maxEligCount dates cols nn hfrest hfe
      have hM : maxEligCount dates cols nn (e :: rest) =
          maxEligCount dates cols nn rest := by
        rw [maxEligCount_cons]
        by_cases helig : typeEligible dates cols nn e = true
        · rw [if_pos helig]
          have h1 := (typeEligible_iff dates cols nn e).mp helig
          have hcnte : typeMatchCount dates cols e ≤ maxM := by
            by_contra hgt
            exact hcond ⟨h1.1, h1.2, by omega⟩
          exact max_eq_right (by omega)
        · rw [if_neg helig]
      rw [hM]
      rw [List.find?_cons_of_neg _ ?_]
      · exact hw1
      · by_cases helig : typeEligible dates cols nn e = true
        · have h1 := (typeEligible_iff dates cols nn e).mp helig
          have hcnte : typeMatchCount dates cols e ≤ maxM := by
            by_contra hgt
            exact hcond ⟨h1.1, h1.2, by omega⟩
          have hlt : typeMatchCount dates cols e < maxEligCount dates cols nn rest := by
            omega
          simp [Nat.ne_of_lt hlt]
        · simp [helig]

/-- C1: for every column, the assigned type is the candidate entity type
with the strictly greatest match count among the types whose match ratio
strictly exceeds 0.30 (first type in the fixed candidate iteration order to
reach the maximum wins ties); for the number type, numeric spans overlapping
a date span are excluded before counting, which is built into the match
count used here; if no type clears the threshold — in particular when the
column has no non-null cells — the column type is "text" and every cell of
the column resolves to no entity. -/
theorem C1_column_typing (dates cols : List AnnoSpan)
    (entities : List (String × List AnnoSpan)) :
    ((∀ e ∈ entities, typeEligible dates cols (numNonNull cols) e = false) →
      chooseColumnType dates cols entities = ("text", cols.map (fun _ => none))) ∧
    ((∃ e ∈ entities, typeEligible dates cols (numNonNull cols) e = true) →
      ∃ w, entities.find? (fun e2 => typeEligible dates cols (numNonNull cols) e2 &&
              (typeMatchCount dates cols e2 ==
                maxEligCount dates cols (numNonNull cols) entities)) = some w ∧
        chooseColumnType dates cols entities =
          (w.1, columnEntities cols (filteredSpans dates w.1 w.2))) := by
  constructor
  · intro h
    unfold chooseColumnType
    rw [colTypeLoop_stable dates cols (numNonNull cols) entities 0 "text" none
      (fun e he helig => absurd helig (by simp [h e he]))]
    rfl
  · rintro ⟨e, he, helig⟩
    have hcnt : 0 < typeMatchCount dates cols e :=
      typeEligible_cnt_pos dates cols (numNonNull cols) helig
    exact colTypeLoop_wins dates cols (numNonNull cols) entities 0 "text" none
      ⟨e, he, helig, hcnt⟩

theorem C1_witness :
    (∃ e ∈ [(("number" : String), [(⟨0, 1, "7"⟩ : AnnoSpan)])],
      typeEligible [] [⟨0, 1, "7"⟩] (numNonNull [⟨0, 1, "7"⟩]) e = true) ∧
    (∃ w, [(("number" : String), [(⟨0, 1, "7"⟩ : AnnoSpan)])].find?
        (fun e2 => typeEligible [] [⟨0, 1, "7"⟩] (numNonNull [⟨0, 1, "7"⟩]) e2 &&
          (typeMatchCount [] [⟨0, 1, "7"⟩] e2 ==
            maxEligCount [] [⟨0, 1, "7"⟩] (numNonNull [⟨0, 1, "7"⟩])
              [(("number" : String), [(⟨0, 1, "7"⟩ : AnnoSpan)])])) = some w ∧
      chooseColumnType [] [⟨0, 1, "7"⟩]
          [(("number" : String), [(⟨0, 1, "7"⟩ : AnnoSpan)])] =
        (w.1, columnEntities [⟨0, 1, "7"⟩] (filteredSpans [] w.1 w.2))) :=
  ⟨⟨("number", [⟨0, 1, "7"⟩]), by decide, by decide⟩,
   (C1_column_typing [] [⟨0, 1, "7"⟩] [("number", [⟨0, 1, "7"⟩])]).2
     ⟨("number", [⟨0, 1, "7"⟩]), by decide, by decide⟩⟩
